import Mathlib

/-!
Verification of the VAD/STT interrupt-arbitration handler
(`livekit-agents/livekit/agents/utils/interrupt_handler.py`).

The Python module is embedded shallowly:

* `Transcript` keeps the `text` and `is_final` fields.  The `timestamp`
  field (wall-clock capture time, `time.time()`) is not modelled: no
  behaviour of the handler reads it.
* Strings are modelled over their character lists; character classes
  (`\w`, `\s`, `str.lower`) are modelled at ASCII granularity, which
  covers every word list and transcript the module manipulates.
* The mutable session state (`_pending_vad`, `_transcript_buffer`,
  `_timer`) becomes an explicit `HandlerState`; each handler method
  becomes a function `... → HandlerState → HandlerState × List Action`,
  where the returned `Action` list records which resolution callbacks the
  method invoked, in order.  The agent-speaking callback and the
  optionality of `ignore_user_speech` enter as boolean parameters
  (`speaking`, `hasIgnore`).
* `threading.Timer` handles are modelled as `TimerHandle` values carrying
  a generation id (fresh ids come from a counter in the state) and the
  scheduled duration in milliseconds; timer expiry is the explicit event
  `on_timer_expired`.  Logging is a side channel and is not modelled.
-/

namespace InterruptArbiter

/-- ASCII whitespace, as used by `str.split()` / `str.strip()`. -/
def isWs (c : Char) : Bool :=
  c.isWhitespace

/-- The apostrophe character (kept by the normalizer's character class). -/
def apostrophe : Char :=
  Char.ofNat 39

/-- ASCII model of the regex class `\w`: letters, digits, underscore. -/
def isWordChar (c : Char) : Bool :=
  c.isAlphanum || c = Char.ofNat 95

/-- `str.lower()` on a character (ASCII). -/
def lowerChar (c : Char) : Char :=
  c.toLower

/-- `str.lower()` on a string (ASCII). -/
def strLower (s : String) : String :=
  String.mk (s.data.map lowerChar)

/-- `str.strip()` on a character list: drop whitespace at both ends. -/
def stripChars (l : List Char) : List Char :=
  ((l.dropWhile isWs).reverse.dropWhile isWs).reverse

/-- `str.strip()` on a string. -/
def pyStrip (s : String) : String :=
  String.mk (stripChars s.data)

/-- `" ".join(ws)` over character lists. -/
def joinSpace : List (List Char) → List Char
  | [] => []
  | [w] => w
  | w :: x :: ws => w ++ ' ' :: joinSpace (x :: ws)

/-- Accumulator pass behind `str.split()`: `cur` holds the reversed
characters of the word currently being read. -/
def splitAux : List Char → List Char → List (List Char)
  | [], cur => if cur = [] then [] else [cur.reverse]
  | c :: cs, cur =>
    if isWs c then
      if cur = [] then splitAux cs [] else cur.reverse :: splitAux cs []
    else
      splitAux cs (c :: cur)

/-- `str.split()` (no argument): split on whitespace runs, no empty words. -/
def pySplit (l : List Char) : List (List Char) :=
  splitAux l []

/-- `str.split()` returning strings. -/
def pySplitStr (s : String) : List String :=
  (pySplit s.data).map String.mk

/-- The substitution step of `re.sub(r"[^\w\s'-]", ' ', s)` on one
character: everything except word characters, whitespace, apostrophes
and hyphens becomes a single space. -/
def replChar (c : Char) : Char :=
  if isWordChar c || isWs c || c = apostrophe || c = '-' then c else ' '

/-- `InterruptHandler._normalize` on a character list:
`re.sub(r"[^\w\s'-]", ' ', s)` followed by `" ".join(s2.split())`. -/
def normalizeChars (l : List Char) : List Char :=
  joinSpace (pySplit (l.map replChar))

/-- `InterruptHandler._normalize`. -/
def normalizeStr (s : String) : String :=
  String.mk (normalizeChars s.data)

/-- Python's `needle in hay` substring test, on character lists. -/
def hasSubList (needle : List Char) : List Char → Bool
  | [] => needle.isPrefixOf []
  | c :: t => needle.isPrefixOf (c :: t) || hasSubList needle t

/-- Python's `needle in hay` substring test on strings. -/
def strHasSub (hay needle : String) : Bool :=
  hasSubList needle.data hay.data

/-- One STT fragment (`Transcript`).  `timestamp` (wall-clock) omitted. -/
structure Transcript where
  text : String
  is_final : Bool
deriving DecidableEq, Repr

/-- `InterruptHandlerConfig` after its constructor ran: both word lists
already lowercased. -/
structure InterruptHandlerConfig where
  soft_words : List String
  hard_words : List String
  validation_window_ms : Int
deriving DecidableEq, Repr

/-- Default `soft_words` argument of the constructor. -/
def defaultSoftWords : List String :=
  ["yeah", "ok", "hmm", "right", "uh-huh", "mhm", "uh huh"]

/-- Default `hard_words` argument of the constructor. -/
def defaultHardWords : List String :=
  ["wait", "stop", "no", "hold on", "pause", "cancel", "hang on",
   "stop that", "stop it"]

/-- `InterruptHandlerConfig.__init__`: lowercases the supplied (or
default) word lists and stores the window duration. -/
def makeConfig (soft : Option (List String)) (hard : Option (List String))
    (vms : Int) : InterruptHandlerConfig :=
  ⟨(soft.getD defaultSoftWords).map strLower,
   (hard.getD defaultHardWords).map strLower,
   vms⟩

/-- The configuration produced by `InterruptHandlerConfig()` with every
argument left at its default. -/
def defaultConfig : InterruptHandlerConfig :=
  makeConfig none none 225

/-- A scheduled `threading.Timer`, modelled by a generation id and the
scheduled duration in milliseconds. -/
structure TimerHandle where
  id : Nat
  duration_ms : Int
deriving DecidableEq, Repr

/-- The mutable session state of `InterruptHandler`: `_pending_vad`,
`_transcript_buffer`, `_timer`, plus the generation counter that mints
fresh timer ids. -/
structure HandlerState where
  pending_vad : Bool
  transcript_buffer : List Transcript
  timer : Option TimerHandle
  nextTimerId : Nat
deriving DecidableEq, Repr

/-- State of a freshly constructed handler. -/
def initState : HandlerState :=
  ⟨false, [], none, 0⟩

/-- The resolution callbacks a handler method can invoke. -/
inductive Action where
  | stopAgentImmediately
  | ignoreUserSpeech
  | processUserSpeechNormally (t : Transcript)
deriving DecidableEq, Repr

/-- `InterruptHandler._clear_pending`: reset the pending flag, empty the
buffer, cancel the timer. -/
def clearPending (s : HandlerState) : HandlerState :=
  ⟨false, [], none, s.nextTimerId⟩

/-- `max(50, int(validation_window_ms))`: the actual timer duration. -/
def timerMs (cfg : InterruptHandlerConfig) : Int :=
  max 50 cfg.validation_window_ms

/-- `InterruptHandler._start_timer`: cancel any existing timer and
schedule a fresh one for `timerMs cfg` milliseconds. -/
def startTimer (cfg : InterruptHandlerConfig) (s : HandlerState) :
    HandlerState :=
  ⟨s.pending_vad, s.transcript_buffer,
   some ⟨s.nextTimerId, timerMs cfg⟩, s.nextTimerId + 1⟩

/-- `InterruptHandler.on_vad_user_started`. -/
def on_vad_user_started (cfg : InterruptHandlerConfig) (s : HandlerState) :
    HandlerState × List Action :=
  (startTimer cfg ⟨true, [], s.timer, s.nextTimerId⟩, [])

/-- `combined = " ".join(t.text for t in buffer).lower().strip()`. -/
def combinedOf (buf : List Transcript) : String :=
  pyStrip (strLower (String.mk (joinSpace (buf.map (fun t => t.text.data)))))

/-- The normalized combined text the classifier works on. -/
def normOf (buf : List Transcript) : String :=
  normalizeStr (combinedOf buf)

/-- The hard-word loop: does any configured hard word occur as a
substring of the normalized text? -/
def anyHard (cfg : InterruptHandlerConfig) (norm : String) : Bool :=
  cfg.hard_words.any (fun hard => strHasSub norm hard)

/-- The soft classification: every whitespace token is either in
`soft_words` or has length at most 2. -/
def onlySoft (cfg : InterruptHandlerConfig) (norm : String) : Bool :=
  (pySplitStr norm).all (fun t => cfg.soft_words.contains t || t.length ≤ 2)

/-- `InterruptHandler.on_stt_transcript`.  `speaking` is the value
`get_agent_speaking_state()` returns during the call; `hasIgnore` is
whether the optional `ignore_user_speech` callback was supplied. -/
def on_stt_transcript (cfg : InterruptHandlerConfig)
    (speaking hasIgnore : Bool) (transcript : Transcript)
    (s : HandlerState) : HandlerState × List Action :=
  if s.pending_vad = false then
    (s, [Action.processUserSpeechNormally transcript])
  else
    let buf := s.transcript_buffer ++ [transcript]
    let combined := combinedOf buf
    let norm := normalizeStr combined
    if anyHard cfg norm then
      (clearPending ⟨s.pending_vad, buf, s.timer, s.nextTimerId⟩,
       [Action.stopAgentImmediately])
    else if speaking then
      if onlySoft cfg norm then
        (clearPending ⟨s.pending_vad, buf, s.timer, s.nextTimerId⟩,
         if hasIgnore then [Action.ignoreUserSpeech] else [])
      else
        (clearPending ⟨s.pending_vad, buf, s.timer, s.nextTimerId⟩,
         [Action.stopAgentImmediately])
    else
      (clearPending ⟨s.pending_vad, buf, s.timer, s.nextTimerId⟩,
       [Action.processUserSpeechNormally ⟨combined, transcript.is_final⟩])

/-- `InterruptHandler.agent_started_speaking`. -/
def agent_started_speaking (s : HandlerState) : HandlerState × List Action :=
  (clearPending s, [])

/-- `InterruptHandler.agent_stopped_speaking`. -/
def agent_stopped_speaking (s : HandlerState) : HandlerState × List Action :=
  (clearPending s, [])

/-- `InterruptHandler._on_timer_expired` (the body that runs under the
lock when a scheduled timer fires). -/
def on_timer_expired (speaking hasIgnore : Bool) (s : HandlerState) :
    HandlerState × List Action :=
  if s.pending_vad = false then
    (s, [])
  else if speaking then
    (clearPending s, if hasIgnore then [Action.ignoreUserSpeech] else [])
  else
    (clearPending s, [])

/-- External events driving the handler.  `speaking` records what the
`get_agent_speaking_state` callback returned during that event. -/
inductive Event where
  | vadStart
  | stt (speaking : Bool) (t : Transcript)
  | agentStarted
  | agentStopped
  | timerExpiry (speaking : Bool)
deriving DecidableEq, Repr

/-- One step of the handler as a state machine. -/
def step (cfg : InterruptHandlerConfig) (hasIgnore : Bool) (e : Event)
    (s : HandlerState) : HandlerState × List Action :=
  match e with
  | Event.vadStart => on_vad_user_started cfg s
  | Event.stt speaking t => on_stt_transcript cfg speaking hasIgnore t s
  | Event.agentStarted => agent_started_speaking s
  | Event.agentStopped => agent_stopped_speaking s
  | Event.timerExpiry speaking => on_timer_expired speaking hasIgnore s

/-- Run a finite event sequence from a state, keeping only the state. -/
def runEvents (cfg : InterruptHandlerConfig) (hasIgnore : Bool)
    (evs : List Event) (s : HandlerState) : HandlerState :=
  evs.foldl (fun st e => (step cfg hasIgnore e st).1) s

/-! ### The Normalizer contract as §4.1 of the spec words it

`collapseAux` is an independent rendering of "whitespace-collapsed and
trimmed": scanning left to right, it drops leading and trailing
whitespace and emits exactly one space between consecutive words.
`seenWord` records whether a word character was already emitted and
`gap` whether whitespace was seen since the last word character. -/

/-- Whitespace collapse and trim, written from the spec's words. -/
def collapseAux : List Char → Bool → Bool → List Char
  | [], _, _ => []
  | c :: cs, seenWord, gap =>
    if isWs c then collapseAux cs seenWord true
    else if seenWord && gap then ' ' :: c :: collapseAux cs true false
    else c :: collapseAux cs true false

/-- Whitespace-collapse-and-trim a character list. -/
def collapseWsTrim (l : List Char) : List Char :=
  collapseAux l false false

/-- §4.1 as literally claimed: lowercase, replace every character that is
not a word character, whitespace, apostrophe or hyphen by a single
space, then whitespace-collapse and trim. -/
def specNormalizeLower (s : String) : String :=
  String.mk (collapseWsTrim ((s.data.map lowerChar).map replChar))

/-- §4.1 minus the lowercasing step: replace every character that is not
a word character, whitespace, apostrophe or hyphen by a single space,
then whitespace-collapse and trim. -/
def specNormalize (s : String) : String :=
  String.mk (collapseWsTrim (s.data.map replChar))

/-! ### Supporting lemmas -/

theorem splitAux_ne_nil (l : List Char) :
    ∀ cur : List Char, cur ≠ [] → splitAux l cur ≠ [] := by
  induction l with
  | nil => intro cur h; simp [splitAux, h]
  | cons c cs ih =>
    intro cur h
    unfold splitAux
    by_cases hw : isWs c = true
    · simp [hw, h]
    · simp only [hw, if_false, Bool.false_eq_true]
      exact ih (c :: cur) (by simp)

theorem joinSpace_cons (w : List Char) (r : List (List Char)) :
    joinSpace (w :: r) = w ++ (if r = [] then [] else ' ' :: joinSpace r) := by
  cases r with
  | nil => simp [joinSpace]
  | cons x xs => simp [joinSpace]

/-- The bridge between the code's `" ".join(s.split())` and the spec's
"whitespace-collapsed and trimmed", proved for every `splitAux`
accumulator at once. -/
theorem split_join_collapse (l : List Char) :
    (∀ cur : List Char, cur ≠ [] →
      joinSpace (splitAux l cur) = cur.reverse ++ collapseAux l true false) ∧
    (collapseAux l true true =
      if splitAux l [] = [] then [] else ' ' :: joinSpace (splitAux l [])) ∧
    (joinSpace (splitAux l []) = collapseAux l false false) ∧
    (collapseAux l false true = collapseAux l false false) := by
  induction l with
  | nil =>
    refine ⟨fun cur h => ?_, by simp [collapseAux, splitAux, joinSpace], ?_, ?_⟩
    · simp [splitAux, h, joinSpace, collapseAux]
    · simp [splitAux, joinSpace, collapseAux]
    · rfl
  | cons c cs ih =>
    obtain ⟨ih1, ih2, ih3, ih4⟩ := ih
    by_cases hw : isWs c = true
    · refine ⟨fun cur h => ?_, ?_, ?_, ?_⟩
      · simp only [splitAux, hw, if_true, h, if_false, collapseAux]
        rw [joinSpace_cons, ih2]
      · simp only [collapseAux, hw, if_true, splitAux, if_pos rfl]
        exact ih2
      · simp only [splitAux, hw, if_true, if_pos rfl, collapseAux]
        rw [ih3, ih4]
      · simp only [collapseAux, hw, if_true]
    · refine ⟨fun cur h => ?_, ?_, ?_, ?_⟩
      · simp only [splitAux, hw, if_false, collapseAux, Bool.true_and,
          Bool.false_eq_true]
        rw [ih1 (c :: cur) (by simp)]
        simp
      · simp only [collapseAux, hw, Bool.true_and, if_true, splitAux,
          if_pos rfl, Bool.false_eq_true, if_false]
        rw [if_neg (splitAux_ne_nil cs [c] (by simp)),
          ih1 [c] (by simp)]
        simp
      · simp only [splitAux, hw, if_pos rfl, collapseAux, Bool.false_and,
          Bool.false_eq_true, if_false]
        rw [ih1 [c] (by simp)]
        simp
      · simp only [collapseAux, hw, Bool.false_and, Bool.false_eq_true,
          if_false]

/-- Resolving a pending window in `on_stt_transcript` always leaves the
Idle state, whatever branch fired. -/
theorem on_stt_pending_state (cfg : InterruptHandlerConfig)
    (speaking hasIgnore : Bool) (t : Transcript) (s : HandlerState)
    (hp : s.pending_vad = true) :
    (on_stt_transcript cfg speaking hasIgnore t s).1 =
      ⟨false, [], none, s.nextTimerId⟩ := by
  unfold on_stt_transcript
  simp only [hp, Bool.true_eq_false, if_false]
  split_ifs <;> rfl

/-- Every step of the handler preserves "the buffer is empty or a window
is pending". -/
theorem step_preserves_buffer_inv (cfg : InterruptHandlerConfig)
    (hasIgnore : Bool) (e : Event) (s : HandlerState)
    (h : s.transcript_buffer = [] ∨ s.pending_vad = true) :
    (step cfg hasIgnore e s).1.transcript_buffer = [] ∨
      (step cfg hasIgnore e s).1.pending_vad = true := by
  cases e with
  | vadStart => exact Or.inl rfl
  | agentStarted => exact Or.inl rfl
  | agentStopped => exact Or.inl rfl
  | timerExpiry speaking =>
    cases hpv : s.pending_vad with
    | false =>
      have hs : (step cfg hasIgnore (Event.timerExpiry speaking) s).1 = s := by
        simp [step, on_timer_expired, hpv]
      rw [hs]; exact h
    | true =>
      left
      cases speaking <;> simp [step, on_timer_expired, hpv, clearPending]
  | stt speaking t =>
    cases hpv : s.pending_vad with
    | false =>
      have hs : (step cfg hasIgnore (Event.stt speaking t) s).1 = s := by
        simp [step, on_stt_transcript, hpv]
      rw [hs]; exact h
    | true =>
      left
      show (on_stt_transcript cfg speaking hasIgnore t s).1.transcript_buffer = []
      rw [on_stt_pending_state cfg speaking hasIgnore t s hpv]

/-- The buffer/pending invariant survives any finite event sequence. -/
theorem runEvents_buffer_inv (cfg : InterruptHandlerConfig)
    (hasIgnore : Bool) (evs : List Event) :
    ∀ s : HandlerState,
      s.transcript_buffer = [] ∨ s.pending_vad = true →
      (runEvents cfg hasIgnore evs s).transcript_buffer = [] ∨
        (runEvents cfg hasIgnore evs s).pending_vad = true := by
  induction evs with
  | nil => intro s h; exact h
  | cons e rest ih =>
    intro s h
    have hr : runEvents cfg hasIgnore (e :: rest) s =
        runEvents cfg hasIgnore rest (step cfg hasIgnore e s).1 := rfl
    rw [hr]
    exact ih _ (step_preserves_buffer_inv cfg hasIgnore e s h)

/-! ### The claims -/

/-- C1: for every `on_stt_transcript` call while a VAD window is pending,
if any configured hard word occurs as a substring of the normalized
space-joined buffered text, `stop_agent_immediately` fires exactly once,
no other resolution callback fires, and the session state returns to
Idle (pending false, buffer empty, timer cancelled), for either agent
speaking state. -/
theorem hard_word_always_interrupts (cfg : InterruptHandlerConfig)
    (speaking hasIgnore : Bool) (tr : Transcript) (s : HandlerState)
    (hp : s.pending_vad = true)
    (hh : anyHard cfg (normOf (s.transcript_buffer ++ [tr])) = true) :
    on_stt_transcript cfg speaking hasIgnore tr s =
      (⟨false, [], none, s.nextTimerId⟩, [Action.stopAgentImmediately]) := by
  have hh' : anyHard cfg
      (normalizeStr (combinedOf (s.transcript_buffer ++ [tr]))) = true := hh
  simp [on_stt_transcript, hp, hh', clearPending]

theorem hard_word_always_interrupts_witness :
    on_stt_transcript defaultConfig true true ⟨"no stop", true⟩
      ⟨true, [], some ⟨0, 225⟩, 1⟩ =
      (⟨false, [], none, 1⟩, [Action.stopAgentImmediately]) :=
  hard_word_always_interrupts defaultConfig true true ⟨"no stop", true⟩
    ⟨true, [], some ⟨0, 225⟩, 1⟩ (by decide) (by decide)

/-- C2: while a window is pending, the agent is speaking and no hard
word matches, the handler takes the ignore path (emitting
`ignore_user_speech` exactly when the callback is supplied) precisely
when every whitespace token of the normalized combined text is a soft
word or has length at most 2; otherwise it fires
`stop_agent_immediately`; either way the pending state is cleared. -/
theorem speaking_soft_vs_interrupt (cfg : InterruptHandlerConfig)
    (hasIgnore : Bool) (tr : Transcript) (s : HandlerState)
    (hp : s.pending_vad = true)
    (hnh : anyHard cfg (normOf (s.transcript_buffer ++ [tr])) = false) :
    on_stt_transcript cfg true hasIgnore tr s =
      (⟨false, [], none, s.nextTimerId⟩,
       if onlySoft cfg (normOf (s.transcript_buffer ++ [tr])) then
         (if hasIgnore then [Action.ignoreUserSpeech] else [])
       else [Action.stopAgentImmediately]) := by
  have hnh' : anyHard cfg
      (normalizeStr (combinedOf (s.transcript_buffer ++ [tr]))) = false := hnh
  rcases Bool.eq_false_or_eq_true
      (onlySoft cfg (normalizeStr (combinedOf (s.transcript_buffer ++ [tr]))))
    with hsoft | hsoft <;>
    simp [on_stt_transcript, hp, hnh', hsoft, clearPending, normOf]

theorem speaking_soft_vs_interrupt_witness :
    on_stt_transcript defaultConfig true true ⟨"yeah ok", false⟩
      ⟨true, [], some ⟨0, 225⟩, 1⟩ =
      (⟨false, [], none, 1⟩, [Action.ignoreUserSpeech]) :=
  speaking_soft_vs_interrupt defaultConfig true ⟨"yeah ok", false⟩
    ⟨true, [], some ⟨0, 225⟩, 1⟩ (by decide) (by decide)

/-- C3 counterexample: with the agent silent and a pending window, the
fragment "Yeah!" resolves through `process_user_speech_normally` with
text "yeah!" (the lowercased, stripped space-join), while the normalized
combined text is "yeah" — so the forwarded text is not the normalized
combined text. -/
theorem silent_processing_not_normalized_cex :
    (on_stt_transcript defaultConfig false true ⟨"Yeah!", true⟩
        ⟨true, [], some ⟨0, 225⟩, 1⟩).2 =
      [Action.processUserSpeechNormally ⟨"yeah!", true⟩] ∧
    normOf [(⟨"Yeah!", true⟩ : Transcript)] = "yeah" ∧
    ("yeah!" : String) ≠ "yeah" := by decide

/-- C3 amended: while a window is pending, the agent is silent and no
hard word matches, `process_user_speech_normally` fires with a
Transcript whose text is the full order-preserved, space-joined,
lowercased and stripped combined text of all buffered fragments (the
punctuation-normalization of `_normalize` is NOT applied to it) and
whose finality flag is that of the triggering fragment; then the pending
state is cleared. -/
theorem silent_agent_processes_combined (cfg : InterruptHandlerConfig)
    (hasIgnore : Bool) (tr : Transcript) (s : HandlerState)
    (hp : s.pending_vad = true)
    (hnh : anyHard cfg (normOf (s.transcript_buffer ++ [tr])) = false) :
    on_stt_transcript cfg false hasIgnore tr s =
      (⟨false, [], none, s.nextTimerId⟩,
       [Action.processUserSpeechNormally
          ⟨combinedOf (s.transcript_buffer ++ [tr]), tr.is_final⟩]) := by
  have hnh' : anyHard cfg
      (normalizeStr (combinedOf (s.transcript_buffer ++ [tr]))) = false := hnh
  simp [on_stt_transcript, hp, hnh', clearPending]

theorem silent_agent_processes_combined_witness :
    on_stt_transcript defaultConfig false true ⟨"Yeah!", true⟩
      ⟨true, [], some ⟨0, 225⟩, 1⟩ =
      (⟨false, [], none, 1⟩,
       [Action.processUserSpeechNormally ⟨"yeah!", true⟩]) :=
  silent_agent_processes_combined defaultConfig true ⟨"Yeah!", true⟩
    ⟨true, [], some ⟨0, 225⟩, 1⟩ (by decide) (by decide)

/-- C4 counterexample: the claim says `_normalize` lowercases; it does
not — on input "A" it returns "A", while the spec-worded normalizer
(with lowercasing) returns "a". -/
theorem normalizer_lowercase_cex :
    normalizeStr "A" = "A" ∧ specNormalizeLower "A" = "a" ∧
    normalizeStr "A" ≠ specNormalizeLower "A" := by decide

/-- C4 amended: `_normalize` is a pure, deterministic function that
replaces every character that is not a word character, whitespace,
apostrophe or hyphen by a single space and whitespace-collapses and
trims the result; it performs no lowercasing (the caller lowercases the
combined text before normalizing). -/
theorem normalizer_matches_spec (s : String) :
    normalizeStr s = specNormalize s :=
  congrArg String.mk (split_join_collapse (s.data.map replChar)).2.2.1

/-- C5: a timer expiry on an already-resolved window is a no-op
(no state change, no callback); on a still-pending window it clears the
state to Idle and fires `ignore_user_speech` (when supplied) exactly if
the agent is speaking, nothing otherwise. -/
theorem timer_expiry_cases (speaking hasIgnore : Bool) (s : HandlerState) :
    (s.pending_vad = false → on_timer_expired speaking hasIgnore s = (s, [])) ∧
    (s.pending_vad = true →
      on_timer_expired speaking hasIgnore s =
        (⟨false, [], none, s.nextTimerId⟩,
         if speaking then (if hasIgnore then [Action.ignoreUserSpeech] else [])
         else [])) := by
  constructor
  · intro h
    simp [on_timer_expired, h]
  · intro h
    cases speaking <;> simp [on_timer_expired, h, clearPending]

theorem timer_expiry_cases_witness :
    on_timer_expired true true ⟨true, [], some ⟨0, 225⟩, 1⟩ =
      (⟨false, [], none, 1⟩, [Action.ignoreUserSpeech]) :=
  (timer_expiry_cases true true ⟨true, [], some ⟨0, 225⟩, 1⟩).2 rfl

/-- C6: calling `on_vad_user_started` while a window is already pending
restarts the window: pending stays true, every previously buffered
fragment is discarded, the validation timer is replaced by a fresh
handle (distinct from the old one), and no resolution callback fires. -/
theorem vad_restart_discards_state (cfg : InterruptHandlerConfig)
    (s : HandlerState) (_hp : s.pending_vad = true)
    (hid : ∀ t0 : TimerHandle, s.timer = some t0 → t0.id < s.nextTimerId) :
    (on_vad_user_started cfg s).1.pending_vad = true ∧
    (on_vad_user_started cfg s).1.transcript_buffer = [] ∧
    (on_vad_user_started cfg s).1.timer =
      some ⟨s.nextTimerId, timerMs cfg⟩ ∧
    (on_vad_user_started cfg s).1.timer ≠ s.timer ∧
    (on_vad_user_started cfg s).2 = [] :=
  ⟨rfl, rfl, rfl,
   fun hcontra => absurd (hid _ hcontra.symm) (lt_irrefl _), rfl⟩

theorem vad_restart_discards_state_witness :
    (on_vad_user_started defaultConfig
        ⟨true, [⟨"old", false⟩], some ⟨0, 225⟩, 1⟩).1.pending_vad = true ∧
    (on_vad_user_started defaultConfig
        ⟨true, [⟨"old", false⟩], some ⟨0, 225⟩, 1⟩).1.transcript_buffer = [] ∧
    (on_vad_user_started defaultConfig
        ⟨true, [⟨"old", false⟩], some ⟨0, 225⟩, 1⟩).1.timer =
      some ⟨1, timerMs defaultConfig⟩ ∧
    (on_vad_user_started defaultConfig
        ⟨true, [⟨"old", false⟩], some ⟨0, 225⟩, 1⟩).1.timer ≠
      some ⟨0, 225⟩ ∧
    (on_vad_user_started defaultConfig
        ⟨true, [⟨"old", false⟩], some ⟨0, 225⟩, 1⟩).2 = [] :=
  vad_restart_discards_state defaultConfig
    ⟨true, [⟨"old", false⟩], some ⟨0, 225⟩, 1⟩ (by decide)
    (by intro t0 ht; injection ht with h; subst h; decide)

/-- C7: in every state reachable by a finite event sequence from the
initial state, the transcript buffer is non-empty only while a window is
pending (equivalently, whenever pending is false the buffer is empty). -/
theorem buffer_nonempty_only_while_pending (cfg : InterruptHandlerConfig)
    (hasIgnore : Bool) (evs : List Event) :
    (runEvents cfg hasIgnore evs initState).transcript_buffer = [] ∨
      (runEvents cfg hasIgnore evs initState).pending_vad = true :=
  runEvents_buffer_inv cfg hasIgnore evs initState (Or.inl rfl)

/-- C8: the timer scheduled by `on_vad_user_started` is set for
`max 50 validation_window_ms` milliseconds — at least 50 ms for every
configured value — and the default configuration's window is 225 ms. -/
theorem timer_duration_floored (cfg : InterruptHandlerConfig)
    (s : HandlerState) :
    (on_vad_user_started cfg s).1.timer =
      some ⟨s.nextTimerId, max 50 cfg.validation_window_ms⟩ ∧
    (50 : Int) ≤ max 50 cfg.validation_window_ms ∧
    defaultConfig.validation_window_ms = 225 :=
  ⟨rfl, le_max_left _ _, rfl⟩

/-- C9: `agent_started_speaking` and `agent_stopped_speaking` each
unconditionally reset the session state to Idle (pending false, buffer
empty, timer cancelled), invoke no resolution callback, and change
nothing else. -/
theorem agent_state_change_resets (s : HandlerState) :
    agent_started_speaking s = (⟨false, [], none, s.nextTimerId⟩, []) ∧
    agent_stopped_speaking s = (⟨false, [], none, s.nextTimerId⟩, []) :=
  ⟨rfl, rfl⟩

/-- C10: if a transcript arriving while a window is pending and the
agent is speaking yields an empty normalized combined text, the token
list is empty, the soft classification holds vacuously, and
`ignore_user_speech` fires (when supplied) while
`stop_agent_immediately` does not; the window resolves to Idle.
(The hypothesis `anyHard cfg "" = false` says no configured hard word is
the empty string, which holds for the defaults.) -/
theorem empty_norm_classified_soft (cfg : InterruptHandlerConfig)
    (hasIgnore : Bool) (tr : Transcript) (s : HandlerState)
    (hp : s.pending_vad = true)
    (hne : anyHard cfg "" = false)
    (hempty : normOf (s.transcript_buffer ++ [tr]) = "") :
    on_stt_transcript cfg true hasIgnore tr s =
      (⟨false, [], none, s.nextTimerId⟩,
       if hasIgnore then [Action.ignoreUserSpeech] else []) ∧
    Action.stopAgentImmediately ∉
      (on_stt_transcript cfg true hasIgnore tr s).2 := by
  have hnorm : normalizeStr (combinedOf (s.transcript_buffer ++ [tr])) = "" :=
    hempty
  have hsoft : onlySoft cfg "" = true := rfl
  have h1 : on_stt_transcript cfg true hasIgnore tr s =
      (⟨false, [], none, s.nextTimerId⟩,
       if hasIgnore then [Action.ignoreUserSpeech] else []) := by
    simp [on_stt_transcript, hp, hnorm, hne, hsoft, clearPending]
  refine ⟨h1, ?_⟩
  rw [h1]
  cases hasIgnore <;> simp

theorem empty_norm_classified_soft_witness :
    on_stt_transcript defaultConfig true true ⟨"!!!", false⟩
      ⟨true, [], some ⟨0, 225⟩, 1⟩ =
      (⟨false, [], none, 1⟩, [Action.ignoreUserSpeech]) ∧
    Action.stopAgentImmediately ∉
      (on_stt_transcript defaultConfig true true ⟨"!!!", false⟩
        ⟨true, [], some ⟨0, 225⟩, 1⟩).2 :=
  empty_norm_classified_soft defaultConfig true ⟨"!!!", false⟩
    ⟨true, [], some ⟨0, 225⟩, 1⟩ (by decide) (by decide) (by decide)

end InterruptArbiter
